import Mathlib

/-!
# Verification of the `manifest` inspection orchestrator and GitHub reconciliation

Shallow embedding of the repository `BlakeWilliams/manifest`:

* `src/inspection.go` — `Check.Perform`: runs configured checkers, aggregates
  per-checker failures and the "had findings" flag, classifies the run outcome.
* `src/pkg/multierror/multierror.go` — error aggregation.
* `src/github/github.go` — comment data (`Comment`, `CommentType`), fetching
  marks every comment `Stale = true`.
* `src/formatters/githubformat/githubformat.go` — the reconciliation engine:
  `BeforeAll` (fingerprint index), `Format` (dedup / post), `AfterAll`
  (resolve stale annotations), `fingerprint`.

All definitions are executable; machine strings are Lean `String`s, Go `uint`
line numbers are `Nat`, Go `int` PR numbers are `Int`.
-/

namespace Manifest

/-! ## Data model (`src/unnamed/part_001`: Result, Severity, Comment)

Go declares `type Severity string` with three named constants; arbitrary
strings are representable (the value comes from checker JSON), so severity is
modelled as `String`. -/

def SeverityInfo : String := "Info"
def SeverityWarn : String := "Warn"
def SeverityError : String := "Error"

/-- `manifest.Comment` — one diagnostic reported by a checker. -/
structure Comment where
  file : String
  line : Nat
  side : String
  text : String
  severity : String
  deriving DecidableEq, Repr

/-- `manifest.Result` — the parsed output of one checker invocation. -/
structure Result where
  failure : String
  comments : List Comment
  deriving DecidableEq, Repr

/-! ## GitHub comment data (`src/github/github.go`) -/

inductive CommentType where
  | reviewComment
  | fileComment
  deriving DecidableEq, Repr

/-- `github.Comment` as fetched from the review host. -/
structure GComment where
  body : String
  id : Int
  type : CommentType
  stale : Bool
  deriving DecidableEq, Repr

/-- `github.NewFileComment` — payload of a posted line comment. -/
structure NewFileComment where
  sha : String
  number : Int
  file : String
  line : Nat
  text : String
  side : String
  deriving DecidableEq, Repr

/-- `defaultClient.fetchComments` (github.go) tags every fetched comment with
the fetch kind and `Stale = true` ("By default all comments are stale unless we
find a matching fingerprint"). -/
def fetchedOf (ct : CommentType) (bodies : List String) : List GComment :=
  bodies.map fun b => { body := b, id := 0, type := ct, stale := true }

/-! ## Go standard-library string operations used by the formatter -/

/-- Go `strings.HasPrefix p s`: `pre` is a prefix of `s`. -/
def goHasPrefix (s pre : String) : Bool :=
  pre.data.isPrefixOf s.data

/-- Go `strings.Contains`-style substring test, used only to state that an
error message does (not) mention a checker's name. -/
def containsSub : List Char → List Char → Bool
  | [], needle => needle.isEmpty
  | c :: t, needle => needle.isPrefixOf (c :: t) || containsSub t needle

/-- Go `strings.Split(s, sep)` for a one-character separator. -/
def splitChar : List Char → Char → List (List Char)
  | [], _ => [[]]
  | c :: rest, sep =>
    if c = sep then [] :: splitChar rest sep
    else
      match splitChar rest sep with
      | [] => [[c]]
      | h :: t => (c :: h) :: t

/-! ## The fingerprint regex (`githubformat.go:42`)

`fingerprintRegex = <!--\s*(manifest:.*?)\s*-->`, used with
`FindAllStringSubmatch(body, -1)`; the index stores submatch 1 (the capture
group `manifest:.*?`).  The scanner below implements exactly this pattern's
matching discipline over a character list:

* `\s` is Go regexp whitespace `[\t\n\f\r ]`;
* each `\s*` is followed by a non-whitespace literal (`manifest:` resp. `-->`),
  so backtracking never helps and the maximal whitespace run is the only
  viable choice;
* `.*?` is lazy and `.` does not match `\n`, so the capture extends one
  non-newline character at a time until `\s*-->` matches;
* matches are non-overlapping and found left to right, continuing after the
  end of each match. -/

def isGoSpace (c : Char) : Bool :=
  c = ' ' ∨ c = '\t' ∨ c = '\n' ∨ c = '\x0c' ∨ c = '\r'

def dropSpaces (cs : List Char) : List Char :=
  cs.dropWhile isGoSpace

/-- Lazy scan of `.*?` followed by `\s*-->`: returns the captured content (the
shortest newline-free prefix after which maximal whitespace is followed by
`-->`) and the remainder after `-->`. -/
def lazyScan : List Char → Option (List Char × List Char)
  | [] => none
  | c :: rest =>
    let stop := dropSpaces (c :: rest)
    if stop.take 3 = ['-', '-', '>'] then some ([], stop.drop 3)
    else if c = '\n' then none
    else (lazyScan rest).map fun p => (c :: p.1, p.2)

/-- Attempt to match the whole pattern at the head of `cs`; on success returns
the captured fingerprint characters and the remainder after the match. -/
def tryMatchAt (cs : List Char) : Option (List Char × List Char) :=
  if cs.take 4 = ['<', '!', '-', '-'] then
    let cs1 := dropSpaces (cs.drop 4)
    if cs1.take 9 = ['m', 'a', 'n', 'i', 'f', 'e', 's', 't', ':'] then
      (lazyScan (cs1.drop 9)).map fun p =>
        (['m', 'a', 'n', 'i', 'f', 'e', 's', 't', ':'] ++ p.1, p.2)
    else none
  else none

/-- Left-to-right non-overlapping scan.  `fuel` only bounds the number of
steps; every step consumes at least one character, so `cs.length + 1` fuel is
always enough. -/
def scanFpsAux : Nat → List Char → List (List Char)
  | 0, _ => []
  | _, [] => []
  | fuel + 1, c :: rest =>
    match tryMatchAt (c :: rest) with
    | some (fp, rem) => fp :: scanFpsAux fuel rem
    | none => scanFpsAux fuel rest

/-- All submatch-1 captures of `fingerprintRegex` in `s`, in order. -/
def findFingerprints (s : String) : List String :=
  (scanFpsAux (s.data.length + 1) s.data).map fun cs => ⟨cs⟩

/-! ## The reconciliation index

`Formatter.existingComments` is a Go `map[string]github.Comment`.  It is
modelled as an association list with overwrite-on-insert; map iteration order
(which Go randomizes) is only ever used by the claims through key membership
and the multiset of entries, never through list order. -/

abbrev CommentIndex := List (String × GComment)

def mapInsert : CommentIndex → String → GComment → CommentIndex
  | [], k, v => [(k, v)]
  | (k', v') :: rest, k, v =>
    if k' = k then (k, v) :: rest else (k', v') :: mapInsert rest k v

def mapLookup : CommentIndex → String → Option GComment
  | [], _ => none
  | (k', v') :: rest, k => if k' = k then some v' else mapLookup rest k

/-! ## `githubformat.Formatter` -/

/-- `fingerprint` (githubformat.go:165-173). -/
def fingerprint (source : String) (c : Comment) : String :=
  if c.file = "" ∨ c.line = 0 then "manifest:" ++ source
  else
    "manifest:" ++ source ++ ":" ++ c.file ++ ":" ++ toString c.line ++ ":" ++ c.side

/-- The `switch comment.Severity` block of `Format` (githubformat.go:111-118);
an unrecognized severity adds no marker line. -/
def severityMarker (sev : String) : String :=
  if sev = SeverityError then "> [!CAUTION]\n"
  else if sev = SeverityWarn then "> [!WARNING]\n"
  else if sev = SeverityInfo then "> [!TIP]\n"
  else ""

/-- The per-line `"> "` quoting loop of `Format` (both branches write the same
text: one `"> " + line + "\n"` per `strings.Split(text, "\n")` entry). -/
def renderQuoted (text : String) : String :=
  ⟨(splitChar text.data '\n').foldl (fun acc line => acc ++ ('>' :: ' ' :: line) ++ ['\n']) []⟩

/-- `fmt.Sprintf(footer, source)` with `footer` from githubformat.go:14. -/
def footerFor (source : String) : String :=
  "\n\n<sub>This comment was generated by the `" ++ source ++
    "` checker using [manifest](https://github.com/blakewilliams/manifest)</sup>"

/-- The message built for one unmatched diagnostic before the branch-specific
suffix: hidden fingerprint marker, severity marker, quoted text. -/
def renderBody (source : String) (c : Comment) : String :=
  "<!-- " ++ fingerprint source c ++ " -->\n\n" ++ severityMarker c.severity ++
    renderQuoted c.text

/-- Indexing one fetched comment (`BeforeAll` inner loop): every fingerprint
found in the body is mapped to the comment. -/
def indexBody (m : CommentIndex) (c : GComment) : CommentIndex :=
  (findFingerprints c.body).foldl (fun m fp => mapInsert m fp c) m

/-- `Formatter.BeforeAll` (githubformat.go:46-75): index the thread comments
(skipping any whose body already starts with `<strike>`), then the review
comments (no such skip in that loop). -/
def beforeAll (threadComments reviewComments : List GComment) : CommentIndex :=
  let m := threadComments.foldl
    (fun m c => if goHasPrefix c.body "<strike>" then m else indexBody m c) []
  reviewComments.foldl (fun m c => indexBody m c) m

/-- Output of one `Formatter.Format` call, restricted to the GitHub client
effects (the trailing `cliFormatter.Format` only prints to the terminal). -/
structure FormatOut where
  fileComments : List NewFileComment
  threadComment : Option String
  index : CommentIndex
  deriving DecidableEq, Repr

/-- The loop body of `Format` (githubformat.go:99-150), folded over
`r.Comments`, accumulating posted file comments and the top-level message
builder.  A diagnostic whose fingerprint is found in the index is skipped
(`continue`); note that the preceding `ec.Stale = false` writes to `ec`, a
copy of the map value, so it does not change the index. -/
def formatFold (source sha : String) (number : Int) (idx : CommentIndex)
    (comments : List Comment) : List NewFileComment × String :=
  comments.foldl
    (fun acc c =>
      if (mapLookup idx (fingerprint source c)).isSome then acc
      else if c.file ≠ "" ∧ c.line ≠ 0 then
        (acc.1 ++ [⟨sha, number, c.file, c.line, renderBody source c ++ footerFor source, c.side⟩],
         acc.2)
      else (acc.1, acc.2 ++ renderBody source c ++ "\n\n"))
    ([], "")

/-- `Formatter.Format` (githubformat.go:96-163).  The client is modelled as
always succeeding (the error paths only propagate client failures).  The
returned `index` equals the input index: the only write, `ec.Stale = false`
at line 103, mutates a local copy of the looked-up map value. -/
def format (source sha : String) (number : Int) (idx : CommentIndex) (r : Result) :
    FormatOut :=
  let acc := formatFold source sha number idx r.comments
  { fileComments := acc.1
    threadComment := if acc.2 = "" then none else some (acc.2 ++ footerFor source)
    index := idx }

/-- `Formatter.AfterAll` (githubformat.go:77-94): every index entry still
`Stale` is resolved (`ResolveFileComment` for `FileComment` type, otherwise
`ResolveComment`); entries with `Stale = false` are skipped.  Returned is the
list of resolved entries. -/
def afterAll (idx : CommentIndex) : List GComment :=
  (idx.map Prod.snd).filter (fun c => c.stale)

/-! ## `Check.Perform` (src/inspection.go:71-155)

Each checker goroutine (lines 98-141) observes the externally determined fate
of its subprocess and JSON parse; that fate is the `CheckerOutcome` below.
The goroutines share `multiErr` (mutex-protected, order of `Add`s is
scheduling-dependent), the plain `hasCheckErrors` flag, and the formatter.
`Perform` is modelled as a fold of the goroutine body over the checkers in an
arbitrary arrival order; the claims below are insensitive to that order.
The `ctx.Err()` guard at line 101 never fires: `ctx` comes from an `errgroup`
through which no goroutine is ever started, so it is never cancelled. -/

/-- The fate of one checker subprocess, as observed by the goroutine body. -/
inductive CheckerOutcome where
  /-- `cmd.Output()` returned an error (failed to launch or nonzero exit);
  `msg` is that error's text. -/
  | runFailure (msg : String)
  /-- exit zero but `json.Unmarshal` failed; `msg` is the JSON error's text. -/
  | parseFailure (msg : String)
  /-- output parsed as a `Result`. -/
  | parsed (r : Result)
  deriving DecidableEq, Repr

/-- Shared state mutated by the checker goroutines: the `multierror.Error`
message list, the `hasCheckErrors` flag, and the record of
`config.Formatter.Format` calls (checker name and result handed over). -/
structure PerformState where
  errors : List String
  hasCheckErrors : Bool
  formatted : List (String × Result)
  deriving DecidableEq, Repr

/-- Whether `r.Comments` contains an `Error`-severity diagnostic — the scan at
inspection.go:128-135 (entered only while the flag is still false; the net
effect on the flag is a disjunction). -/
def hasErrorComment (r : Result) : Bool :=
  r.comments.any fun c => c.severity = SeverityError

/-- The body of one checker goroutine (inspection.go:98-141).  `fmtErr` gives
the formatter's verdict for a `Format` call (`none` = success), so that
formatter failures (line 137-139) can be represented. -/
def processChecker (fmtErr : String → Result → Option String)
    (st : PerformState) (name : String) (oc : CheckerOutcome) : PerformState :=
  match oc with
  | .runFailure msg =>
    { st with errors := st.errors ++ ["`" ++ name ++ "` check failed to run: " ++ msg] }
  | .parseFailure msg =>
    -- line 119: `multiErr.Add(err)` — the raw JSON error, without the
    -- checker's name (the name is only printed to stderr at line 117).
    { st with errors := st.errors ++ [msg] }
  | .parsed r =>
    if r.failure ≠ "" then
      { st with errors :=
          st.errors ++ ["Check " ++ name ++ " failed with reported reason: " ++ r.failure] }
    else
      let st := if st.hasCheckErrors then st
                else { st with hasCheckErrors := hasErrorComment r }
      let st := { st with formatted := st.formatted ++ [(name, r)] }
      match fmtErr name r with
      | some e => { st with errors := st.errors ++ [e] }
      | none => st

/-- All checker goroutines, in their (nondeterministic) completion order. -/
def processAll (fmtErr : String → Result → Option String)
    (checkers : List (String × CheckerOutcome)) : PerformState :=
  checkers.foldl (fun st p => processChecker fmtErr st p.1 p.2) ⟨[], false, []⟩

/-- The run outcome of `Perform`. -/
inductive RunOutcome where
  /-- `nil` return. -/
  | success
  /-- `ErrCheckReportedError` ("one or more checkers reported an error"). -/
  | checkReported
  /-- `multiErr.ErrorOrNil()`: the aggregate carrying every recorded message;
  `multierror.Error.Error()` renders it as `strings.Join(messages, "\n")`. -/
  | failed (msgs : List String)
  deriving DecidableEq, Repr

/-- `multierror.Error.Error()` (multierror.go:46-53). -/
def multierrorMessage (msgs : List String) : String :=
  String.intercalate "\n" msgs

/-- The classification at inspection.go:146-154: `multiErr.None()` means the
message list is empty. -/
def classify (st : PerformState) : RunOutcome :=
  if st.errors = [] then
    if st.hasCheckErrors then .checkReported else .success
  else .failed st.errors

/-- `Perform`'s outcome for a run in which the checkers complete with the
given outcomes, in the given order. -/
def performOutcome (fmtErr : String → Result → Option String)
    (checkers : List (String × CheckerOutcome)) : RunOutcome :=
  classify (processAll fmtErr checkers)

/-- A formatter that never fails (e.g. every client call succeeds). -/
def fmtOk : String → Result → Option String := fun _ _ => none

/-! ## Scheduling of checker goroutines (src/inspection.go:77-144)

C8 concerns how many checker processes can be active at once.  The launch
discipline in the source: line 78-79 create an `errgroup` `g` and call
`g.SetLimit(i.config.Concurrency)`, but the loop at lines 96-141 starts every
checker with a plain `go func()` statement tracked only by a
`sync.WaitGroup` — `g.Go` is never called, so nothing ever acquires the
errgroup's semaphore (and its context is never cancelled).  Consequently a
pending checker can start at any scheduler step, whatever the configured
limit.  The transition system below models exactly that: `start` requires
only that the checker has not started yet. -/

inductive Phase where
  | pending
  | running
  | done
  deriving DecidableEq, Repr

/-- One scheduler step of `Perform`'s checker goroutines, for a run configured
with `concurrency` (the value passed to `g.SetLimit`, which no rule consults —
faithful to the source, where the limit is configured but never used). -/
inductive SchedStep (concurrency : Int) : List Phase → List Phase → Prop
  | start (s : List Phase) (i : Nat) (h : s.get? i = some .pending) :
      SchedStep concurrency s (s.set i .running)
  | finish (s : List Phase) (i : Nat) (h : s.get? i = some .running) :
      SchedStep concurrency s (s.set i .done)

/-- Reachability under `SchedStep`. -/
inductive SchedReach (concurrency : Int) : List Phase → List Phase → Prop
  | refl (s : List Phase) : SchedReach concurrency s s
  | tail {s t u : List Phase} (hst : SchedReach concurrency s t)
      (htu : SchedStep concurrency t u) : SchedReach concurrency s u

/-- Number of simultaneously active checker processes. -/
def activeCount (s : List Phase) : Nat :=
  s.countP (fun p => p = .running)

end Manifest

namespace Manifest

/-! ### Smoke tests of the embedding (concrete evaluations) -/

example : fingerprint "lint" ⟨"a.go", 10, "RIGHT", "issue", SeverityError⟩ =
    "manifest:lint:a.go:10:RIGHT" := by
  decide

example : findFingerprints "<!-- manifest:test --> x <!-- manifest:test:a.go:10:RIGHT -->" =
    ["manifest:test", "manifest:test:a.go:10:RIGHT"] := by
  decide

example : findFingerprints "<strike><!-- manifest:z --></strike>" = ["manifest:z"] := by
  decide

example : goHasPrefix "<strike>x" "<strike>" = true := by decide

/-! ### Helper lemmas about the reconciliation index (Go map semantics) -/

lemma lookup_mapInsert (m : CommentIndex) (k : String) (v : GComment) (k' : String) :
    mapLookup (mapInsert m k v) k' = if k = k' then some v else mapLookup m k' := by
  induction m with
  | nil => rfl
  | cons e rest ih =>
    obtain ⟨ek, ev⟩ := e
    by_cases he : ek = k
    · subst he
      by_cases hk : ek = k' <;> simp [mapInsert, mapLookup, hk]
    · by_cases hk : ek = k'
      · subst hk
        have : ¬ k = ek := fun h => he h.symm
        simp [mapInsert, mapLookup, he, this]
      · simp [mapInsert, mapLookup, he, hk, ih]

lemma lookup_insertList_isSome (l : List String) (m : CommentIndex) (v : GComment)
    (fp : String) (h : (mapLookup m fp).isSome) :
    (mapLookup (l.foldl (fun m k => mapInsert m k v) m) fp).isSome := by
  induction l generalizing m with
  | nil => exact h
  | cons k rest ih =>
    refine ih _ ?_
    rw [lookup_mapInsert]
    by_cases hk : k = fp <;> simp [hk, h]

lemma lookup_insertList_isSome_of_mem (l : List String) (m : CommentIndex) (v : GComment)
    (fp : String) (h : fp ∈ l) :
    (mapLookup (l.foldl (fun m k => mapInsert m k v) m) fp).isSome := by
  induction l generalizing m with
  | nil => cases h
  | cons k rest ih =>
    rcases List.mem_cons.mp h with rfl | hmem
    · exact lookup_insertList_isSome rest _ v fp (by rw [lookup_mapInsert]; simp)
    · exact ih _ hmem

lemma lookup_indexBody_isSome (m : CommentIndex) (c : GComment) (fp : String)
    (h : (mapLookup m fp).isSome) :
    (mapLookup (indexBody m c) fp).isSome :=
  lookup_insertList_isSome _ m c fp h

lemma lookup_indexBody_isSome_of_mem (m : CommentIndex) (c : GComment) (fp : String)
    (h : fp ∈ findFingerprints c.body) :
    (mapLookup (indexBody m c) fp).isSome :=
  lookup_insertList_isSome_of_mem _ m c fp h

/-- Any sequence of thread-comment indexing steps preserves key presence. -/
lemma lookup_threadFold_isSome (ts : List GComment) (m : CommentIndex) (fp : String)
    (h : (mapLookup m fp).isSome) :
    (mapLookup (ts.foldl
        (fun m c => if goHasPrefix c.body "<strike>" then m else indexBody m c) m) fp).isSome := by
  induction ts generalizing m with
  | nil => exact h
  | cons t rest ih =>
    refine ih _ ?_
    by_cases hs : goHasPrefix t.body "<strike>" = true
    · simpa [hs] using h
    · simp only [Bool.not_eq_true] at hs
      simpa [hs] using lookup_indexBody_isSome m t fp h

lemma lookup_reviewFold_isSome (rs : List GComment) (m : CommentIndex) (fp : String)
    (h : (mapLookup m fp).isSome) :
    (mapLookup (rs.foldl (fun m c => indexBody m c) m) fp).isSome := by
  induction rs generalizing m with
  | nil => exact h
  | cons r rest ih => exact ih _ (lookup_indexBody_isSome m r fp h)

/-- A fingerprint appearing in the body of a fetched review (line-level)
comment is always indexed by `BeforeAll`. -/
lemma beforeAll_isSome_of_review (ts rs : List GComment) (c : GComment) (fp : String)
    (hc : c ∈ rs) (h : fp ∈ findFingerprints c.body) :
    (mapLookup (beforeAll ts rs) fp).isSome := by
  obtain ⟨l₁, l₂, rfl⟩ := List.append_of_mem hc
  rw [beforeAll, List.foldl_append, List.foldl_cons]
  exact lookup_reviewFold_isSome l₂ _ fp (lookup_indexBody_isSome_of_mem _ c fp h)

/-- A fingerprint appearing in the body of a fetched thread comment that is
not struck is indexed by `BeforeAll`. -/
lemma beforeAll_isSome_of_thread (ts rs : List GComment) (c : GComment) (fp : String)
    (hc : c ∈ ts) (hstrike : goHasPrefix c.body "<strike>" = false)
    (h : fp ∈ findFingerprints c.body) :
    (mapLookup (beforeAll ts rs) fp).isSome := by
  obtain ⟨l₁, l₂, rfl⟩ := List.append_of_mem hc
  rw [beforeAll, List.foldl_append, List.foldl_cons]
  refine lookup_reviewFold_isSome rs _ fp (lookup_threadFold_isSome l₂ _ fp ?_)
  simpa [hstrike] using lookup_indexBody_isSome_of_mem _ c fp h

/-! ### Closed form of the `Format` loop -/

lemma str_append_empty (s : String) : s ++ "" = s := by
  cases s with
  | mk d => exact congrArg String.mk (List.append_nil d)

/-- Concatenation of the top-level blocks, in order. -/
def strJoin : List String → String
  | [] => ""
  | x :: xs => x ++ strJoin xs

/-- The line comment posted for an unmatched line-scoped diagnostic. -/
def fileCommentFor (source sha : String) (number : Int) (c : Comment) : NewFileComment :=
  ⟨sha, number, c.file, c.line, renderBody source c ++ footerFor source, c.side⟩

/-- Selector: the line comment a diagnostic contributes, if any. -/
def fileSel (source sha : String) (number : Int) (idx : CommentIndex) (c : Comment) :
    Option NewFileComment :=
  if (mapLookup idx (fingerprint source c)).isSome then none
  else if c.file ≠ "" ∧ c.line ≠ 0 then some (fileCommentFor source sha number c) else none

/-- Selector: the block a diagnostic appends to the top-level message, if
any. -/
def topSel (source : String) (idx : CommentIndex) (c : Comment) : Option String :=
  if (mapLookup idx (fingerprint source c)).isSome then none
  else if c.file ≠ "" ∧ c.line ≠ 0 then none else some (renderBody source c ++ "\n\n")

lemma formatFold_go (source sha : String) (number : Int) (idx : CommentIndex)
    (comments : List Comment) (acc : List NewFileComment × String) :
    (comments.foldl
      (fun acc c =>
        if (mapLookup idx (fingerprint source c)).isSome then acc
        else if c.file ≠ "" ∧ c.line ≠ 0 then
          (acc.1 ++ [⟨sha, number, c.file, c.line,
              renderBody source c ++ footerFor source, c.side⟩], acc.2)
        else (acc.1, acc.2 ++ renderBody source c ++ "\n\n"))
      acc) =
      (acc.1 ++ comments.filterMap (fileSel source sha number idx),
       acc.2 ++ strJoin (comments.filterMap (topSel source idx))) := by
  induction comments generalizing acc with
  | nil => simp [strJoin, str_append_empty]
  | cons c rest ih =>
    rw [List.foldl_cons, ih, List.filterMap_cons, List.filterMap_cons]
    by_cases h1 : (mapLookup idx (fingerprint source c)).isSome
    · simp [fileSel, topSel, h1]
    · by_cases h2 : c.file ≠ "" ∧ c.line ≠ 0
      · simp [fileSel, topSel, h1, h2, fileCommentFor, strJoin]
      · simp [fileSel, topSel, h1, h2, strJoin, String.append_assoc]

/-- Closed form of one `Format` call. -/
lemma format_spec (source sha : String) (number : Int) (idx : CommentIndex) (r : Result) :
    format source sha number idx r =
      { fileComments := r.comments.filterMap (fileSel source sha number idx)
        threadComment :=
          if strJoin (r.comments.filterMap (topSel source idx)) = "" then none
          else some (strJoin (r.comments.filterMap (topSel source idx)) ++ footerFor source)
        index := idx } := by
  rw [format, formatFold, formatFold_go]
  simp

lemma str_data_append (a b : String) : (a ++ b).data = a.data ++ b.data := by
  cases a; cases b; rfl

lemma str_eq_empty_iff (s : String) : s = "" ↔ s.data = [] := by
  constructor
  · intro h
    rw [h]
  · intro h
    cases s with
    | mk d =>
      have hd : d = [] := h
      rw [hd]

lemma strJoin_ne_empty_of_mem (blocks : List String) (b : String) (hb : b ∈ blocks)
    (hne : b.data ≠ []) : strJoin blocks ≠ "" := by
  induction blocks with
  | nil => cases hb
  | cons x xs ih =>
    rw [Ne, str_eq_empty_iff, strJoin, str_data_append]
    rcases List.mem_cons.mp hb with rfl | hmem
    · simp [hne]
    · have := ih hmem
      rw [Ne, str_eq_empty_iff] at this
      simp [this]

lemma renderBody_block_data_ne_nil (source : String) (c : Comment) :
    (renderBody source c ++ "\n\n").data ≠ [] := by
  rw [renderBody, str_data_append, str_data_append, str_data_append, str_data_append]
  simp [show ("<!-- " : String).data = ['<', '!', '-', '-', ' '] from rfl]

lemma str_ext {a b : String} (h : a.data = b.data) : a = b := by
  cases a
  cases b
  exact congrArg String.mk h

/-! ### Symbolic facts about the fingerprint scanner

A fingerprint whose characters are neither Go-regexp whitespace nor `'-'` is
recovered verbatim by the scanner from a marker `<!-- fp -->` at the head of
a body, whatever follows. -/

/-- Well-formedness of a fingerprint for reliable re-extraction: no character
is whitespace (which would end the capture early) and `-->` never occurs
inside it (which would form a premature terminator).  This is exactly the
boundary of the code's behavior: ordinary hyphenated names re-extract fine,
while a fingerprint containing whitespace or `-->` is truncated by the lazy
capture (see the C2 counterexample). -/
def tokenOk (s : String) : Prop :=
  (∀ ch ∈ s.data, isGoSpace ch = false) ∧ containsSub s.data ['-', '-', '>'] = false

instance (s : String) : Decidable (tokenOk s) := by
  unfold tokenOk
  infer_instance

/-- A substring absent from a concatenation is absent from its right part. -/
lemma containsSub_append_right (a b needle : List Char)
    (h : containsSub (a ++ b) needle = false) : containsSub b needle = false := by
  induction a with
  | nil => exact h
  | cons x a' ih =>
    rw [List.cons_append, containsSub] at h
    exact ih (Bool.or_eq_false_iff.mp h).2

lemma dropSpaces_cons_false (c : Char) (l : List Char) (h : isGoSpace c = false) :
    dropSpaces (c :: l) = c :: l := by
  simp [dropSpaces, List.dropWhile_cons, h]

lemma lazyScan_clean (tail rest : List Char)
    (hsp : ∀ ch ∈ tail, isGoSpace ch = false)
    (hns : containsSub tail ['-', '-', '>'] = false) :
    lazyScan (tail ++ ' ' :: '-' :: '-' :: '>' :: rest) = some (tail, rest) := by
  induction tail with
  | nil => rfl
  | cons c cs ih =>
    have hc : isGoSpace c = false := hsp c (List.mem_cons_self c cs)
    have hcs_sp : ∀ ch ∈ cs, isGoSpace ch = false :=
      fun ch hm => hsp ch (List.mem_cons_of_mem c hm)
    have hcs_ns : containsSub cs ['-', '-', '>'] = false := by
      rw [containsSub] at hns
      exact (Bool.or_eq_false_iff.mp hns).2
    have hnl : ¬ c = '\n' := fun h' => by
      rw [h'] at hc
      exact absurd hc (by decide)
    have htake : ¬ ((c :: (cs ++ ' ' :: '-' :: '-' :: '>' :: rest)).take 3 = ['-', '-', '>']) := by
      intro heq
      have h3 : (c :: (cs ++ ' ' :: '-' :: '-' :: '>' :: rest)).take 3 =
          c :: (cs ++ ' ' :: '-' :: '-' :: '>' :: rest).take 2 := rfl
      rw [h3] at heq
      obtain ⟨hc1, heq2⟩ := List.cons_eq_cons.mp heq
      cases cs with
      | nil =>
        have h2 : ((' ' :: '-' :: '-' :: '>' :: rest : List Char)).take 2 = [' ', '-'] := rfl
        rw [List.nil_append, h2] at heq2
        exact absurd heq2 (by decide)
      | cons c₂ cs₂ =>
        have h2 : (c₂ :: (cs₂ ++ ' ' :: '-' :: '-' :: '>' :: rest)).take 2 =
            c₂ :: (cs₂ ++ ' ' :: '-' :: '-' :: '>' :: rest).take 1 := rfl
        rw [List.cons_append, h2] at heq2
        obtain ⟨hc2, heq3⟩ := List.cons_eq_cons.mp heq2
        cases cs₂ with
        | nil =>
          have h1 : ((' ' :: '-' :: '-' :: '>' :: rest : List Char)).take 1 = [' '] := rfl
          rw [List.nil_append, h1] at heq3
          exact absurd heq3 (by decide)
        | cons c₃ cs₃ =>
          have h1 : (c₃ :: (cs₃ ++ ' ' :: '-' :: '-' :: '>' :: rest)).take 1 = [c₃] := rfl
          rw [List.cons_append, h1] at heq3
          have hc3 : c₃ = '>' := (List.cons_eq_cons.mp heq3).1
          rw [hc1, hc2, hc3] at hns
          have htrue : containsSub ('-' :: '-' :: '>' :: cs₃) ['-', '-', '>'] = true := by
            rw [containsSub]
            simp [List.isPrefixOf]
          simp [htrue] at hns
    rw [List.cons_append, lazyScan]
    simp only [dropSpaces_cons_false c _ hc]
    rw [if_neg htake, if_neg hnl, ih hcs_sp hcs_ns]
    rfl

lemma tryMatchAt_marker (tail rest : List Char)
    (hsp : ∀ ch ∈ tail, isGoSpace ch = false)
    (hns : containsSub tail ['-', '-', '>'] = false) :
    tryMatchAt ('<' :: '!' :: '-' :: '-' :: ' ' :: 'm' :: 'a' :: 'n' :: 'i' :: 'f' :: 'e' ::
        's' :: 't' :: ':' :: (tail ++ ' ' :: '-' :: '-' :: '>' :: rest)) =
      some ('m' :: 'a' :: 'n' :: 'i' :: 'f' :: 'e' :: 's' :: 't' :: ':' :: tail, rest) := by
  have hred : tryMatchAt ('<' :: '!' :: '-' :: '-' :: ' ' :: 'm' :: 'a' :: 'n' :: 'i' :: 'f' ::
      'e' :: 's' :: 't' :: ':' :: (tail ++ ' ' :: '-' :: '-' :: '>' :: rest)) =
      (lazyScan (tail ++ ' ' :: '-' :: '-' :: '>' :: rest)).map fun p =>
        (['m', 'a', 'n', 'i', 'f', 'e', 's', 't', ':'] ++ p.1, p.2) := rfl
  rw [hred, lazyScan_clean tail rest hsp hns]
  rfl

lemma scanFpsAux_marker (n : Nat) (tail rest : List Char)
    (hsp : ∀ ch ∈ tail, isGoSpace ch = false)
    (hns : containsSub tail ['-', '-', '>'] = false) :
    scanFpsAux (n + 1) ('<' :: '!' :: '-' :: '-' :: ' ' :: 'm' :: 'a' :: 'n' :: 'i' :: 'f' ::
        'e' :: 's' :: 't' :: ':' :: (tail ++ ' ' :: '-' :: '-' :: '>' :: rest)) =
      ('m' :: 'a' :: 'n' :: 'i' :: 'f' :: 'e' :: 's' :: 't' :: ':' :: tail) :: scanFpsAux n rest := by
  rw [scanFpsAux, tryMatchAt_marker tail rest hsp hns]

/-- Any body whose character data starts with a marker `<!-- fp -->` yields
`fp` among its extracted fingerprints. -/
lemma mem_findFingerprints_data (s : String) (tail rest : List Char)
    (hs : s.data = '<' :: '!' :: '-' :: '-' :: ' ' :: 'm' :: 'a' :: 'n' :: 'i' :: 'f' ::
        'e' :: 's' :: 't' :: ':' :: (tail ++ ' ' :: '-' :: '-' :: '>' :: rest))
    (hsp : ∀ ch ∈ tail, isGoSpace ch = false)
    (hns : containsSub tail ['-', '-', '>'] = false)
    (fp : String)
    (hfp : fp.data = 'm' :: 'a' :: 'n' :: 'i' :: 'f' :: 'e' :: 's' :: 't' :: ':' :: tail) :
    fp ∈ findFingerprints s := by
  rw [findFingerprints, hs, List.length_cons, scanFpsAux_marker _ tail rest hsp hns,
    List.map_cons]
  have : fp = (⟨'m' :: 'a' :: 'n' :: 'i' :: 'f' :: 'e' :: 's' :: 't' :: ':' :: tail⟩ : String) := by
    cases fp
    exact congrArg String.mk hfp
  rw [this]
  exact List.mem_cons_self _ _

/-- Every fingerprint splits as `"manifest:" ++ tail`. -/
lemma fingerprint_decomp (source : String) (c : Comment) :
    ∃ tailStr : String, fingerprint source c = "manifest:" ++ tailStr := by
  by_cases hcond : c.file = "" ∨ c.line = 0
  · exact ⟨source, by simp [fingerprint, hcond]⟩
  · refine ⟨source ++ ":" ++ c.file ++ ":" ++ toString c.line ++ ":" ++ c.side, str_ext ?_⟩
    simp [fingerprint, hcond, str_data_append, List.append_assoc]

/-- The marker-extraction fact at the `String` level: the fingerprint placed
by `renderBody` at the head of a posted body is recovered by `BeforeAll`'s
regex scan, whatever follows the marker. -/
lemma mem_findFingerprints_renderBody (source : String) (c : Comment) (extra : String)
    (htok : tokenOk (fingerprint source c)) :
    fingerprint source c ∈ findFingerprints (renderBody source c ++ extra) := by
  obtain ⟨tailStr, hdec⟩ := fingerprint_decomp source c
  have hmdata : ("manifest:" : String).data =
      ['m', 'a', 'n', 'i', 'f', 'e', 's', 't', ':'] := rfl
  have hfpdata : (fingerprint source c).data =
      'm' :: 'a' :: 'n' :: 'i' :: 'f' :: 'e' :: 's' :: 't' :: ':' :: tailStr.data := by
    rw [hdec, str_data_append, hmdata]
    rfl
  have htail_sp : ∀ ch ∈ tailStr.data, isGoSpace ch = false := by
    intro ch hm
    exact htok.1 ch (by rw [hfpdata]; simp [hm])
  have htail_ns : containsSub tailStr.data ['-', '-', '>'] = false := by
    have h := htok.2
    rw [hfpdata] at h
    exact containsSub_append_right ['m', 'a', 'n', 'i', 'f', 'e', 's', 't', ':'] _ _ h
  refine mem_findFingerprints_data _ tailStr.data
    ('\n' :: '\n' :: (severityMarker c.severity ++ (renderQuoted c.text ++ extra)).data)
    ?_ htail_sp htail_ns (fingerprint source c) hfpdata
  rw [renderBody]
  simp only [str_data_append, hfpdata,
    show ("<!-- " : String).data = ['<', '!', '-', '-', ' '] from rfl,
    show (" -->\n\n" : String).data = [' ', '-', '-', '>', '\n', '\n'] from rfl]
  simp [List.append_assoc]

/-- A body starting with the marker prefix `<!` is never taken for a struck
(`<strike>`-prefixed) comment. -/
lemma goHasPrefix_strike_false (s : String) (l : List Char)
    (hs : s.data = '<' :: '!' :: l) :
    goHasPrefix s "<strike>" = false := by
  rw [goHasPrefix, hs, show ("<strike>" : String).data =
    ['<', 's', 't', 'r', 'i', 'k', 'e', '>'] from rfl]
  simp [List.isPrefixOf]

/-! ### Helper lemmas for the idempotence claim -/

/-- If every current diagnostic's fingerprint is indexed, `Format` posts
neither a line comment nor a thread comment. -/
lemma format_posts_nothing_of_matched (source sha : String) (number : Int)
    (idx : CommentIndex) (r : Result)
    (h : ∀ c ∈ r.comments, (mapLookup idx (fingerprint source c)).isSome = true) :
    (format source sha number idx r).fileComments = [] ∧
    (format source sha number idx r).threadComment = none := by
  rw [format_spec]
  have hfile : r.comments.filterMap (fileSel source sha number idx) = [] := by
    rw [List.filterMap_eq_nil_iff]
    intro c hc
    simp [fileSel, h c hc]
  have htop : r.comments.filterMap (topSel source idx) = [] := by
    rw [List.filterMap_eq_nil_iff]
    intro c hc
    simp [topSel, h c hc]
  refine ⟨hfile, ?_⟩
  simp [htop, strJoin]

lemma fileSel_empty (source sha : String) (number : Int) (c : Comment) :
    fileSel source sha number [] c =
      if c.file ≠ "" ∧ c.line ≠ 0 then some (fileCommentFor source sha number c) else none := by
  simp [fileSel, mapLookup]

lemma topSel_empty (source : String) (c : Comment) :
    topSel source [] c =
      if c.file ≠ "" ∧ c.line ≠ 0 then none else some (renderBody source c ++ "\n\n") := by
  simp [topSel, mapLookup]

lemma length_filterMap_ite_pos {α β : Type} (p : α → Prop) [DecidablePred p]
    (g : α → β) (l : List α) :
    (l.filterMap fun a => if p a then some (g a) else none).length =
      (l.filter fun a => decide (p a)).length := by
  induction l with
  | nil => rfl
  | cons a rest ih =>
    by_cases ha : p a <;> simp [List.filterMap_cons, List.filter_cons, ha, ih]

lemma length_filterMap_ite_neg {α β : Type} (p : α → Prop) [DecidablePred p]
    (g : α → β) (l : List α) :
    (l.filterMap fun a => if p a then none else some (g a)).length =
      (l.filter fun a => !decide (p a)).length := by
  induction l with
  | nil => rfl
  | cons a rest ih =>
    by_cases ha : p a <;> simp [List.filterMap_cons, List.filter_cons, ha, ih]

lemma toFinset_card_of_all_eq (l : List String) (a : String) (h : ∀ x ∈ l, x = a) :
    l.toFinset.card = if l = [] then 0 else 1 := by
  cases l with
  | nil => simp
  | cons x xs =>
    have hx : (x :: xs).toFinset = {a} := by
      apply Finset.ext
      intro y
      simp only [List.mem_toFinset, Finset.mem_singleton]
      constructor
      · exact fun hy => h y hy
      · intro hy
        subst hy
        rw [← h x (List.mem_cons_self x xs)]
        exact List.mem_cons_self x xs
    rw [hx]
    simp

/-- A diagnostic that is not line-scoped fingerprints to the checker-only
form. -/
lemma fingerprint_top (source : String) (c : Comment)
    (hcond : ¬ (c.file ≠ "" ∧ c.line ≠ 0)) :
    fingerprint source c = "manifest:" ++ source := by
  have hor : c.file = "" ∨ c.line = 0 := by
    rcases not_and_or.mp hcond with h | h
    · exact Or.inl (not_not.mp h)
    · exact Or.inr (not_not.mp h)
  simp [fingerprint, hor]

/-- A line-scoped fingerprint is strictly longer than the checker-only
fingerprint, hence distinct from it. -/
lemma fingerprint_line_ne_top (source : String) (c : Comment)
    (hline : c.file ≠ "" ∧ c.line ≠ 0) :
    fingerprint source c ≠ "manifest:" ++ source := by
  intro heq
  have hcond : ¬ (c.file = "" ∨ c.line = 0) := by
    rintro (h | h)
    · exact hline.1 h
    · exact hline.2 h
  rw [fingerprint, if_neg hcond] at heq
  have hlen := congrArg (fun s : String => s.data.length) heq
  simp only [str_data_append, List.length_append,
    show ("manifest:" : String).data.length = 9 from rfl,
    show (":" : String).data.length = 1 from rfl] at hlen
  omega

/-- After a first run against an empty index posts its annotations, fetching
them back and rebuilding the index (`BeforeAll`) matches every fingerprint of
the unchanged diagnostic set. -/
lemma rerunIndex_matches (source sha : String) (number : Int) (r : Result)
    (htok : ∀ c ∈ r.comments, tokenOk (fingerprint source c)) :
    ∀ c ∈ r.comments,
      (mapLookup
        (beforeAll
          (fetchedOf .reviewComment (format source sha number [] r).threadComment.toList)
          (fetchedOf .fileComment
            ((format source sha number [] r).fileComments.map NewFileComment.text)))
        (fingerprint source c)).isSome = true := by
  intro c hc
  by_cases hline : c.file ≠ "" ∧ c.line ≠ 0
  · -- line-scoped: run 1 posted a file comment; it comes back as a review
    -- (line-level) comment with the fingerprint at the head of its body.
    have hfc : fileCommentFor source sha number c ∈
        (format source sha number [] r).fileComments := by
      rw [format_spec]
      exact List.mem_filterMap.mpr ⟨c, hc, by rw [fileSel_empty]; simp [hline]⟩
    have hg : (⟨renderBody source c ++ footerFor source, 0,
        CommentType.fileComment, true⟩ : GComment) ∈
        fetchedOf .fileComment
          ((format source sha number [] r).fileComments.map NewFileComment.text) :=
      List.mem_map.mpr ⟨_, List.mem_map.mpr ⟨_, hfc, rfl⟩, rfl⟩
    exact beforeAll_isSome_of_review _ _ _ _ hg
      (mem_findFingerprints_renderBody source c (footerFor source) (htok c hc))
  · -- top-level: run 1 posted one aggregated thread comment whose body starts
    -- with the first top-level block's marker; all top-level diagnostics of
    -- this run share that fingerprint.
    have hcblock : (renderBody source c ++ "\n\n") ∈
        r.comments.filterMap (topSel source []) :=
      List.mem_filterMap.mpr ⟨c, hc, by rw [topSel_empty]; simp [hline]⟩
    cases hb : r.comments.filterMap (topSel source []) with
    | nil => rw [hb] at hcblock; cases hcblock
    | cons b₀ bs =>
      have hb₀mem : b₀ ∈ r.comments.filterMap (topSel source []) := by
        rw [hb]
        exact List.mem_cons_self b₀ bs
      obtain ⟨c₀, hc₀, hsel⟩ := List.mem_filterMap.mp hb₀mem
      rw [topSel_empty] at hsel
      by_cases h₀ : c₀.file ≠ "" ∧ c₀.line ≠ 0
      · rw [if_pos h₀] at hsel
        cases hsel
      · rw [if_neg h₀] at hsel
        have hb₀ : b₀ = renderBody source c₀ ++ "\n\n" := (Option.some.inj hsel).symm
        have hjoin_ne : strJoin (r.comments.filterMap (topSel source [])) ≠ "" :=
          strJoin_ne_empty_of_mem _ b₀ hb₀mem
            (by rw [hb₀]; exact renderBody_block_data_ne_nil source c₀)
      -- the thread comment run 1 posts:
        have hthread : (format source sha number [] r).threadComment =
            some (strJoin (r.comments.filterMap (topSel source [])) ++ footerFor source) := by
          rw [format_spec]
          exact if_neg hjoin_ne
        have hbodyeq : strJoin (r.comments.filterMap (topSel source [])) ++ footerFor source =
            renderBody source c₀ ++ ("\n\n" ++ (strJoin bs ++ footerFor source)) := by
          rw [hb, strJoin, hb₀]
          apply str_ext
          simp [str_data_append, List.append_assoc]
        have hfp : fingerprint source c₀ ∈ findFingerprints
            (strJoin (r.comments.filterMap (topSel source [])) ++ footerFor source) := by
          rw [hbodyeq]
          exact mem_findFingerprints_renderBody source c₀ _ (htok c₀ hc₀)
        obtain ⟨l, hl⟩ : ∃ l,
            (strJoin (r.comments.filterMap (topSel source [])) ++ footerFor source).data =
              '<' :: '!' :: l := by
          rw [hbodyeq, renderBody]
          simp only [str_data_append,
            show ("<!-- " : String).data = ['<', '!', '-', '-', ' '] from rfl,
            List.append_assoc, List.cons_append]
          exact ⟨_, rfl⟩
        have hg : (⟨strJoin (r.comments.filterMap (topSel source [])) ++ footerFor source, 0,
            CommentType.reviewComment, true⟩ : GComment) ∈
            fetchedOf .reviewComment (format source sha number [] r).threadComment.toList := by
          rw [hthread]
          exact List.mem_map.mpr ⟨_, List.mem_cons_self _ _, rfl⟩
        rw [fingerprint_top source c hline, ← fingerprint_top source c₀ h₀]
        exact beforeAll_isSome_of_thread _ _ _ _ hg (goHasPrefix_strike_false _ l hl) hfp

/-- First run against an empty index: one line comment is posted per
line-scoped diagnostic, regardless of duplicate fingerprints. -/
lemma run1_fileComments_length (source sha : String) (number : Int) (r : Result) :
    (format source sha number [] r).fileComments.length =
      (r.comments.filter fun c => decide (c.file ≠ "" ∧ c.line ≠ 0)).length := by
  rw [format_spec]
  rw [show fileSel source sha number [] = fun c =>
    if c.file ≠ "" ∧ c.line ≠ 0 then some (fileCommentFor source sha number c) else none
    from funext (fileSel_empty source sha number)]
  exact length_filterMap_ite_pos _ _ _

lemma run1_blocks_length (source : String) (r : Result) :
    (r.comments.filterMap (topSel source [])).length =
      (r.comments.filter fun c => !decide (c.file ≠ "" ∧ c.line ≠ 0)).length := by
  rw [show topSel source [] = fun c =>
    if c.file ≠ "" ∧ c.line ≠ 0 then none else some (renderBody source c ++ "\n\n")
    from funext (topSel_empty source)]
  exact length_filterMap_ite_neg _ _ _

/-- First run against an empty index: the aggregated thread comment is posted
exactly when some top-level diagnostic exists. -/
lemma run1_thread_length (source sha : String) (number : Int) (r : Result) :
    (format source sha number [] r).threadComment.toList.length =
      if (r.comments.filter fun c => !decide (c.file ≠ "" ∧ c.line ≠ 0)) = [] then 0
      else 1 := by
  have hthreadLen : (format source sha number [] r).threadComment.toList.length =
      if r.comments.filterMap (topSel source []) = [] then 0 else 1 := by
    rw [format_spec]
    cases hb : r.comments.filterMap (topSel source []) with
    | nil => simp [hb, strJoin]
    | cons b₀ bs =>
      have hb₀mem : b₀ ∈ r.comments.filterMap (topSel source []) := by
        rw [hb]
        exact List.mem_cons_self b₀ bs
      obtain ⟨c₀, hc₀, hsel⟩ := List.mem_filterMap.mp hb₀mem
      rw [topSel_empty] at hsel
      by_cases h₀ : c₀.file ≠ "" ∧ c₀.line ≠ 0
      · rw [if_pos h₀] at hsel
        cases hsel
      · rw [if_neg h₀] at hsel
        have hb₀ : b₀ = renderBody source c₀ ++ "\n\n" := (Option.some.inj hsel).symm
        have hjoin_ne : strJoin (b₀ :: bs) ≠ "" := by
          rw [← hb]
          exact strJoin_ne_empty_of_mem _ b₀ hb₀mem
            (by rw [hb₀]; exact renderBody_block_data_ne_nil source c₀)
        simp [hjoin_ne]
  rw [hthreadLen]
  have hiff : (r.comments.filterMap (topSel source []) = []) ↔
      ((r.comments.filter fun c => !decide (c.file ≠ "" ∧ c.line ≠ 0)) = []) := by
    rw [← List.length_eq_zero, run1_blocks_length, List.length_eq_zero]
  by_cases hbe : r.comments.filterMap (topSel source []) = []
  · rw [if_pos hbe, if_pos (hiff.mp hbe)]
  · rw [if_neg hbe, if_neg (fun h => hbe (hiff.mpr h))]

/-- First run against an empty index: when the line-scoped fingerprints are
pairwise distinct, the number of posted annotations equals the number of
distinct fingerprints of the diagnostic set. -/
lemma run1_count (source sha : String) (number : Int) (r : Result)
    (hnd : ((r.comments.filter fun c => decide (c.file ≠ "" ∧ c.line ≠ 0)).map
        (fingerprint source)).Nodup) :
    (format source sha number [] r).fileComments.length +
      (format source sha number [] r).threadComment.toList.length =
      (r.comments.map (fingerprint source)).toFinset.card := by
  -- the distinct-fingerprint count
  have hperm : ((r.comments.filter fun c => decide (c.file ≠ "" ∧ c.line ≠ 0)) ++
      (r.comments.filter fun c => !decide (c.file ≠ "" ∧ c.line ≠ 0))).Perm r.comments :=
    List.filter_append_perm _ _
  have hsplit : (r.comments.map (fingerprint source)).toFinset =
      ((r.comments.filter fun c => decide (c.file ≠ "" ∧ c.line ≠ 0)).map
        (fingerprint source)).toFinset ∪
      ((r.comments.filter fun c => !decide (c.file ≠ "" ∧ c.line ≠ 0)).map
        (fingerprint source)).toFinset := by
    rw [← List.toFinset_append, ← List.map_append]
    exact (List.toFinset_eq_of_perm _ _ (List.Perm.map (fingerprint source) hperm)).symm
  have htopAll : ∀ x ∈ (r.comments.filter fun c => !decide (c.file ≠ "" ∧ c.line ≠ 0)).map
      (fingerprint source), x = "manifest:" ++ source := by
    intro x hx
    obtain ⟨c', hc', rfl⟩ := List.mem_map.mp hx
    have := (List.mem_filter.mp hc').2
    simp only [Bool.not_eq_true', decide_eq_false_iff_not] at this
    exact fingerprint_top source c' this
  have hdisj : Disjoint
      ((r.comments.filter fun c => decide (c.file ≠ "" ∧ c.line ≠ 0)).map
        (fingerprint source)).toFinset
      ((r.comments.filter fun c => !decide (c.file ≠ "" ∧ c.line ≠ 0)).map
        (fingerprint source)).toFinset := by
    rw [Finset.disjoint_left]
    intro a ha hb
    rw [List.mem_toFinset] at ha hb
    obtain ⟨c', hc', rfl⟩ := List.mem_map.mp ha
    have hline := (List.mem_filter.mp hc').2
    simp only [decide_eq_true_eq] at hline
    exact fingerprint_line_ne_top source c' hline (htopAll _ hb)
  rw [hsplit, Finset.card_union_of_disjoint hdisj, List.toFinset_card_of_nodup hnd,
    List.length_map] at *
  rw [run1_fileComments_length, run1_thread_length,
    toFinset_card_of_all_eq _ ("manifest:" ++ source) htopAll]
  by_cases hbe : (r.comments.filter fun c => !decide (c.file ≠ "" ∧ c.line ≠ 0)) = []
  · rw [if_pos hbe, if_pos (List.map_eq_nil_iff.mpr hbe)]
  · rw [if_neg hbe, if_neg (fun h => hbe (List.map_eq_nil_iff.mp h))]

/-! ### Helper lemmas about the `Perform` fold -/

/-- Effect of one goroutine on the `hasCheckErrors` flag. -/
lemma processChecker_flag (fmtErr : String → Result → Option String)
    (st : PerformState) (name : String) (oc : CheckerOutcome) :
    (processChecker fmtErr st name oc).hasCheckErrors =
      (st.hasCheckErrors ||
        match oc with
        | .parsed r => decide (r.failure = "") && hasErrorComment r
        | _ => false) := by
  cases oc with
  | runFailure msg => simp [processChecker]
  | parseFailure msg => simp [processChecker]
  | parsed r =>
    by_cases hf : r.failure = ""
    · simp only [processChecker, hf]
      cases hflag : st.hasCheckErrors <;> cases hfmt : fmtErr name r <;> simp [hflag, hfmt]
    · simp [processChecker, hf]

/-- Effect of one goroutine on the record of formatter calls. -/
lemma processChecker_formatted (fmtErr : String → Result → Option String)
    (st : PerformState) (name : String) (oc : CheckerOutcome) :
    (processChecker fmtErr st name oc).formatted =
      st.formatted ++
        (match oc with
         | .parsed r => if r.failure = "" then [(name, r)] else []
         | _ => []) := by
  cases oc with
  | runFailure msg => simp [processChecker]
  | parseFailure msg => simp [processChecker]
  | parsed r =>
    by_cases hf : r.failure = ""
    · simp only [processChecker, hf]
      cases hflag : st.hasCheckErrors <;> cases hfmt : fmtErr name r <;> simp [hflag, hfmt]
    · simp [processChecker, hf]

/-- The messages one goroutine appends to the error collection. -/
def errorDelta (fmtErr : String → Result → Option String) (name : String) :
    CheckerOutcome → List String
  | .runFailure msg => ["`" ++ name ++ "` check failed to run: " ++ msg]
  | .parseFailure msg => [msg]
  | .parsed r =>
    if r.failure ≠ "" then ["Check " ++ name ++ " failed with reported reason: " ++ r.failure]
    else
      match fmtErr name r with
      | some e => [e]
      | none => []

/-- One goroutine only appends to the error collection. -/
lemma processChecker_errors (fmtErr : String → Result → Option String)
    (st : PerformState) (name : String) (oc : CheckerOutcome) :
    (processChecker fmtErr st name oc).errors = st.errors ++ errorDelta fmtErr name oc := by
  cases oc with
  | runFailure msg => simp [processChecker, errorDelta]
  | parseFailure msg => simp [processChecker, errorDelta]
  | parsed r =>
    by_cases hf : r.failure = ""
    · simp only [processChecker, errorDelta, hf]
      cases hflag : st.hasCheckErrors <;> cases hfmt : fmtErr name r <;> simp [hflag, hfmt]
    · simp [processChecker, errorDelta, hf]

lemma processChecker_errors_prefix (fmtErr : String → Result → Option String)
    (st : PerformState) (name : String) (oc : CheckerOutcome) :
    ∃ δ, (processChecker fmtErr st name oc).errors = st.errors ++ δ :=
  ⟨errorDelta fmtErr name oc, processChecker_errors fmtErr st name oc⟩

lemma foldl_errors_mem (fmtErr : String → Result → Option String)
    (l : List (String × CheckerOutcome)) (st : PerformState) (e : String)
    (h : e ∈ st.errors) :
    e ∈ (l.foldl (fun st p => processChecker fmtErr st p.1 p.2) st).errors := by
  induction l generalizing st with
  | nil => exact h
  | cons p rest ih =>
    apply ih
    obtain ⟨δ, hδ⟩ := processChecker_errors_prefix fmtErr st p.1 p.2
    rw [hδ]
    exact List.mem_append_left _ h

/-- If a checker with outcome `oc` is somewhere in the run and its goroutine
always records the message `e`, then `e` ends up in the error collection. -/
lemma mem_errors_of_step (fmtErr : String → Result → Option String)
    (checkers : List (String × CheckerOutcome)) (name : String) (oc : CheckerOutcome)
    (hmem : (name, oc) ∈ checkers) (e : String)
    (hadd : ∀ st : PerformState, e ∈ (processChecker fmtErr st name oc).errors) :
    e ∈ (processAll fmtErr checkers).errors := by
  obtain ⟨l₁, l₂, rfl⟩ := List.append_of_mem hmem
  rw [processAll, List.foldl_append, List.foldl_cons]
  exact foldl_errors_mem _ _ _ _ (hadd _)

lemma processAll_flag_go (fmtErr : String → Result → Option String)
    (l : List (String × CheckerOutcome)) (st : PerformState) :
    (l.foldl (fun st p => processChecker fmtErr st p.1 p.2) st).hasCheckErrors =
      (st.hasCheckErrors ||
        l.any fun p =>
          match p.2 with
          | .parsed r => decide (r.failure = "") && hasErrorComment r
          | _ => false) := by
  induction l generalizing st with
  | nil => simp
  | cons p rest ih =>
    rw [List.foldl_cons, ih, List.any_cons, processChecker_flag, Bool.or_assoc]

lemma processAll_formatted_go (fmtErr : String → Result → Option String)
    (l : List (String × CheckerOutcome)) (st : PerformState) :
    (l.foldl (fun st p => processChecker fmtErr st p.1 p.2) st).formatted =
      st.formatted ++
        l.filterMap (fun p =>
          match p.2 with
          | .parsed r => if r.failure = "" then some (p.1, r) else none
          | _ => none) := by
  induction l generalizing st with
  | nil => simp
  | cons p rest ih =>
    rw [List.foldl_cons, ih, processChecker_formatted, List.filterMap_cons]
    cases hoc : p.2 with
    | parsed r =>
      by_cases hf : r.failure = "" <;> simp [hf, List.append_assoc]
    | runFailure msg => simp
    | parseFailure msg => simp

/-! ### C5 — fingerprint derivation -/

/-- **C5.** A top-level diagnostic (empty file and zero line) fingerprints to
`manifest:<checker>`; a line-scoped diagnostic (nonempty file and nonzero
line) fingerprints to `manifest:<checker>:<file>:<line>:<side>`; and the
fingerprint depends only on the location (file, line, side), never on the
diagnostic text or severity. -/
theorem C5_fingerprint_derivation (source : String) (c : Comment) :
    (c.file = "" ∧ c.line = 0 → fingerprint source c = "manifest:" ++ source) ∧
    (c.file ≠ "" ∧ c.line ≠ 0 →
      fingerprint source c =
        "manifest:" ++ source ++ ":" ++ c.file ++ ":" ++ toString c.line ++ ":" ++ c.side) ∧
    (∀ c' : Comment, c.file = c'.file → c.line = c'.line → c.side = c'.side →
      fingerprint source c = fingerprint source c') := by
  refine ⟨fun h => ?_, fun h => ?_, fun c' h1 h2 h3 => ?_⟩
  · simp [fingerprint, h.1]
  · simp [fingerprint, h.1, h.2]
  · simp only [fingerprint, h1, h2, h3]

/-- Witness for C5 at the spec's concrete example: checker `lint`,
diagnostic at `a.go:10/RIGHT`, and text-independence of the fingerprint. -/
theorem C5_fingerprint_derivation_witness :
    fingerprint "lint" ⟨"a.go", 10, "RIGHT", "issue", SeverityError⟩ =
        "manifest:lint:a.go:10:RIGHT" ∧
    fingerprint "lint" ⟨"", 0, "", "general advice", SeverityWarn⟩ = "manifest:lint" ∧
    fingerprint "lint" ⟨"a.go", 10, "RIGHT", "issue", SeverityError⟩ =
      fingerprint "lint" ⟨"a.go", 10, "RIGHT", "completely different text", SeverityInfo⟩ := by
  refine ⟨?_, ?_, ?_⟩
  · rw [(C5_fingerprint_derivation "lint" ⟨"a.go", 10, "RIGHT", "issue", SeverityError⟩).2.1
      ⟨by decide, by decide⟩]
    decide
  · rw [(C5_fingerprint_derivation "lint" ⟨"", 0, "", "general advice", SeverityWarn⟩).1
      ⟨rfl, rfl⟩]
    decide
  · exact (C5_fingerprint_derivation "lint" ⟨"a.go", 10, "RIGHT", "issue", SeverityError⟩).2.2
      ⟨"a.go", 10, "RIGHT", "completely different text", SeverityInfo⟩ rfl rfl rfl

/-! ### C10 — a reported failure short-circuits the rest of the goroutine -/

/-- **C10.** For a parsed `Result` with non-empty `failure`, the goroutine
records the failure message and returns (inspection.go:123-126): the state is
otherwise untouched — nothing is handed to the formatter and the
`hasCheckErrors` flag is not examined or set. -/
theorem C10_reported_failure_skips_rest (fmtErr : String → Result → Option String)
    (st : PerformState) (name : String) (r : Result) (h : r.failure ≠ "") :
    processChecker fmtErr st name (.parsed r) =
      { st with errors :=
          st.errors ++ ["Check " ++ name ++ " failed with reported reason: " ++ r.failure] } := by
  simp [processChecker, h]

/-- Witness for C10: a result with `failure = "boom"` and an Error-severity
diagnostic only records the failure; the diagnostic is never formatted and
the flag stays false. -/
theorem C10_reported_failure_skips_rest_witness :
    processChecker fmtOk ⟨[], false, []⟩ "db"
        (.parsed ⟨"boom", [⟨"", 0, "", "x", SeverityError⟩]⟩) =
      ⟨["Check db failed with reported reason: boom"], false, []⟩ := by
  rw [C10_reported_failure_skips_rest fmtOk ⟨[], false, []⟩ "db"
    ⟨"boom", [⟨"", 0, "", "x", SeverityError⟩]⟩ (by decide)]
  decide

/-! ### C4 — when the had-findings flag is set -/

/-- **C4 counterexample.** A single checker whose parsed `Result` has
`failure = "boom"` and an `Error`-severity diagnostic does *not* set the
shared had-findings flag: the `return` at inspection.go:125 skips the
severity scan, so the flag is not independent of the `failure` field as the
claim states. -/
theorem C4_counterexample :
    (processAll fmtOk
        [("c", .parsed ⟨"boom", [⟨"", 0, "", "x", SeverityError⟩]⟩)]).hasCheckErrors =
      false := by
  decide

/-- **C4 (amended).** The had-findings flag is set iff some checker's parsed
`Result` has *empty* `failure` and contains an `Error`-severity diagnostic; a
Result with non-empty `failure` never contributes to the flag. -/
theorem C4_amended_flag_iff (fmtErr : String → Result → Option String)
    (checkers : List (String × CheckerOutcome)) :
    (processAll fmtErr checkers).hasCheckErrors = true ↔
      ∃ p ∈ checkers, ∃ r : Result,
        p.2 = CheckerOutcome.parsed r ∧ r.failure = "" ∧ hasErrorComment r = true := by
  rw [processAll, processAll_flag_go]
  simp only [Bool.false_or, List.any_eq_true]
  constructor
  · rintro ⟨p, hp, hpred⟩
    refine ⟨p, hp, ?_⟩
    cases hoc : p.2 with
    | parsed r =>
      rw [hoc] at hpred
      simp only [Bool.and_eq_true, decide_eq_true_eq] at hpred
      exact ⟨r, rfl, hpred.1, hpred.2⟩
    | runFailure msg => rw [hoc] at hpred; simp at hpred
    | parseFailure msg => rw [hoc] at hpred; simp at hpred
  · rintro ⟨p, hp, r, hoc, hf, he⟩
    exact ⟨p, hp, by rw [hoc]; simp [hf, he]⟩

/-! ### C3 — outcome classification priority -/

/-- **C3.** `Perform` classifies the run in priority order
(inspection.go:146-154): a non-empty error collection yields the aggregated
error carrying every recorded message; otherwise the had-findings flag yields
`ErrCheckReportedError`; otherwise success.  In particular, a run with one
checker execution failure and a sibling reporting an `Error`-severity
diagnostic returns the aggregated execution-failure error, not the
findings-only error. -/
theorem C3_outcome_priority (fmtErr : String → Result → Option String)
    (checkers : List (String × CheckerOutcome)) :
    ((processAll fmtErr checkers).errors ≠ [] →
      performOutcome fmtErr checkers = .failed (processAll fmtErr checkers).errors) ∧
    ((processAll fmtErr checkers).errors = [] →
      (processAll fmtErr checkers).hasCheckErrors = true →
      performOutcome fmtErr checkers = .checkReported) ∧
    ((processAll fmtErr checkers).errors = [] →
      (processAll fmtErr checkers).hasCheckErrors = false →
      performOutcome fmtErr checkers = .success) ∧
    performOutcome fmtOk
        [("broken", .runFailure "exit status 1"),
         ("lint", .parsed ⟨"", [⟨"a.go", 10, "RIGHT", "issue", SeverityError⟩]⟩)] =
      .failed ["`broken` check failed to run: exit status 1"] := by
  refine ⟨fun h => ?_, fun h hf => ?_, fun h hf => ?_, by decide⟩
  · simp [performOutcome, classify, h]
  · simp [performOutcome, classify, h, hf]
  · simp [performOutcome, classify, h, hf]

/-- Witness for C3: a run with only an execution failure takes the
aggregated-error branch; the concrete two-checker scenario of the claim is
part of the theorem itself. -/
theorem C3_outcome_priority_witness :
    performOutcome fmtOk [("broken", .runFailure "exit status 1")] =
      .failed ["`broken` check failed to run: exit status 1"] := by
  exact (C3_outcome_priority fmtOk [("broken", .runFailure "exit status 1")]).1 (by decide)

/-! ### C8 — the concurrency limit is never enforced -/

/-- **C8.** With two configured checkers and `Concurrency = 1`, a state with
both checker processes simultaneously active is reachable: the checkers are
launched with plain `go` statements and `g.Go` is never called, so the
errgroup limit set by `g.SetLimit(i.config.Concurrency)` (inspection.go:79)
bounds nothing.  This refutes the claimed bound of at most `K = 1` active
processes. -/
theorem C8_limit_not_enforced :
    SchedReach 1 [.pending, .pending] [.running, .running] ∧
    activeCount [.running, .running] = 2 := by
  constructor
  · have h1 : SchedStep 1 [Phase.pending, Phase.pending] [Phase.running, Phase.pending] := by
      have h := @SchedStep.start 1 [Phase.pending, Phase.pending] 0 rfl
      simpa using h
    have h2 : SchedStep 1 [Phase.running, Phase.pending] [Phase.running, Phase.running] := by
      have h := @SchedStep.start 1 [Phase.running, Phase.pending] 1 rfl
      simpa using h
    exact SchedReach.tail (SchedReach.tail (SchedReach.refl _) h1) h2
  · decide

/-! ### C7 — failure isolation and error attribution -/

/-- **C7 counterexample.** A checker whose output fails to parse is recorded
as the bare JSON error (inspection.go:119): the aggregated run error does not
name the failing checker — `mychecker` appears nowhere in the single recorded
message — contradicting "lists every failing checker by name". -/
theorem C7_counterexample :
    performOutcome fmtOk [("mychecker", .parseFailure "unexpected end of JSON input")] =
      .failed ["unexpected end of JSON input"] ∧
    containsSub "unexpected end of JSON input".data "mychecker".data = false := by
  decide

/-- **C7 (amended).** Every per-checker failure is appended to the shared
error collection without cancelling sibling checkers — the formatter receives
every successfully parsed sibling Result no matter which other checkers fail
— and the aggregated error names the failing checker for execution failures
and reported failures, while an unparseable-output failure is recorded as the
bare parse error (the checker name goes only to stderr). -/
theorem C7_amended_isolation_and_attribution (fmtErr : String → Result → Option String)
    (checkers : List (String × CheckerOutcome)) :
    (∀ name msg, (name, CheckerOutcome.runFailure msg) ∈ checkers →
      ("`" ++ name ++ "` check failed to run: " ++ msg) ∈ (processAll fmtErr checkers).errors) ∧
    (∀ name r, (name, CheckerOutcome.parsed r) ∈ checkers → r.failure ≠ "" →
      ("Check " ++ name ++ " failed with reported reason: " ++ r.failure) ∈
        (processAll fmtErr checkers).errors) ∧
    (∀ name msg, (name, CheckerOutcome.parseFailure msg) ∈ checkers →
      msg ∈ (processAll fmtErr checkers).errors) ∧
    (processAll fmtErr checkers).formatted =
      checkers.filterMap (fun p =>
        match p.2 with
        | .parsed r => if r.failure = "" then some (p.1, r) else none
        | _ => none) := by
  refine ⟨fun name msg hmem => ?_, fun name r hmem hf => ?_, fun name msg hmem => ?_,
    processAll_formatted_go fmtErr checkers ⟨[], false, []⟩⟩
  · exact mem_errors_of_step fmtErr checkers name _ hmem _
      (fun st => by simp [processChecker])
  · exact mem_errors_of_step fmtErr checkers name _ hmem _
      (fun st => by simp [processChecker, hf])
  · exact mem_errors_of_step fmtErr checkers name _ hmem _
      (fun st => by simp [processChecker])

/-- Witness for C7 (amended): in a run with one failing checker and one
healthy sibling, the failure is recorded with the checker's name and the
sibling's Result is still handed to the formatter. -/
theorem C7_amended_isolation_and_attribution_witness :
    ("`broken` check failed to run: exit status 1") ∈
      (processAll fmtOk
        [("broken", .runFailure "exit status 1"),
         ("lint", .parsed ⟨"", [⟨"a.go", 10, "RIGHT", "issue", SeverityError⟩]⟩)]).errors ∧
    (processAll fmtOk
        [("broken", .runFailure "exit status 1"),
         ("lint", .parsed ⟨"", [⟨"a.go", 10, "RIGHT", "issue", SeverityError⟩]⟩)]).formatted =
      [("lint", ⟨"", [⟨"a.go", 10, "RIGHT", "issue", SeverityError⟩]⟩)] := by
  constructor
  · exact (C7_amended_isolation_and_attribution fmtOk
      [("broken", .runFailure "exit status 1"),
       ("lint", .parsed ⟨"", [⟨"a.go", 10, "RIGHT", "issue", SeverityError⟩]⟩)]).1
      "broken" "exit status 1" (by decide)
  · rw [(C7_amended_isolation_and_attribution fmtOk
      [("broken", .runFailure "exit status 1"),
       ("lint", .parsed ⟨"", [⟨"a.go", 10, "RIGHT", "issue", SeverityError⟩]⟩)]).2.2.2]
    decide

/-! ### C2 — idempotence of reconciliation -/

set_option maxRecDepth 65536 in
/-- **C2 counterexample.** The claim as stated fails on the code in two ways.
(a) Two findings at the same location from the same checker share one
fingerprint, yet a run against an empty index posts a line comment for each:
`Format` never updates the index during a run, so "exactly one annotation per
distinct fingerprint" is false.  (b) A fingerprint the marker regex cannot
recover verbatim — here the file path `a --> b.go`, whose ` --> ` terminates
the lazy capture early, so only the truncated `manifest:lint:a` is indexed —
is not matched on the second run, which posts the same annotation again:
"the second run posts zero new annotations" is false in full generality. -/
theorem C2_counterexample :
    fingerprint "lint" ⟨"a.go", 10, "RIGHT", "issue one", SeverityError⟩ =
      fingerprint "lint" ⟨"a.go", 10, "RIGHT", "issue two", SeverityWarn⟩ ∧
    (format "lint" "sha0" 1 []
      ⟨"", [⟨"a.go", 10, "RIGHT", "issue one", SeverityError⟩,
            ⟨"a.go", 10, "RIGHT", "issue two", SeverityWarn⟩]⟩).fileComments.length = 2 ∧
    (format "lint" "sha0" 1
        (beforeAll
          (fetchedOf .reviewComment
            (format "lint" "sha0" 1 []
              ⟨"", [⟨"a --> b.go", 10, "RIGHT", "boom", SeverityError⟩]⟩).threadComment.toList)
          (fetchedOf .fileComment
            ((format "lint" "sha0" 1 []
              ⟨"", [⟨"a --> b.go", 10, "RIGHT", "boom", SeverityError⟩]⟩).fileComments.map
                NewFileComment.text)))
        ⟨"", [⟨"a --> b.go", 10, "RIGHT", "boom", SeverityError⟩]⟩).fileComments.length = 1 := by
  decide

/-- **C2 (amended).** (i) For every Result whose diagnostics' fingerprints
are all present in the reconciliation index, `Format` posts no annotation: no
line comment and no thread comment — unconditionally.  (ii) For an unchanged
diagnostic set whose fingerprints the marker regex recovers verbatim (no
whitespace and no `-->` occurs inside a fingerprint), the second run —
against the index `BeforeAll` rebuilds from the comments run 1 posted —
posts zero new annotations, and run 1 posts one line comment per line-scoped
diagnostic plus one aggregated thread comment exactly when a top-level
diagnostic exists; that amounts to one annotation per distinct fingerprint
exactly when the line-scoped fingerprints are pairwise distinct (co-located
findings share one fingerprint but are each posted). -/
theorem C2_idempotence :
    (∀ (source sha : String) (number : Int) (idx : CommentIndex) (r : Result),
      (∀ c ∈ r.comments, (mapLookup idx (fingerprint source c)).isSome = true) →
      (format source sha number idx r).fileComments = [] ∧
      (format source sha number idx r).threadComment = none) ∧
    (∀ (source sha : String) (number : Int) (r : Result),
      (∀ c ∈ r.comments, tokenOk (fingerprint source c)) →
      (format source sha number
          (beforeAll
            (fetchedOf .reviewComment (format source sha number [] r).threadComment.toList)
            (fetchedOf .fileComment
              ((format source sha number [] r).fileComments.map NewFileComment.text)))
          r).fileComments = [] ∧
      (format source sha number
          (beforeAll
            (fetchedOf .reviewComment (format source sha number [] r).threadComment.toList)
            (fetchedOf .fileComment
              ((format source sha number [] r).fileComments.map NewFileComment.text)))
          r).threadComment = none ∧
      (format source sha number [] r).fileComments.length =
        (r.comments.filter fun c => decide (c.file ≠ "" ∧ c.line ≠ 0)).length ∧
      (format source sha number [] r).threadComment.toList.length =
        (if (r.comments.filter fun c => !decide (c.file ≠ "" ∧ c.line ≠ 0)) = [] then 0
         else 1) ∧
      (((r.comments.filter fun c => decide (c.file ≠ "" ∧ c.line ≠ 0)).map
          (fingerprint source)).Nodup →
        (format source sha number [] r).fileComments.length +
            (format source sha number [] r).threadComment.toList.length =
          (r.comments.map (fingerprint source)).toFinset.card)) := by
  refine ⟨format_posts_nothing_of_matched, fun source sha number r htok => ?_⟩
  obtain ⟨h1, h2⟩ := format_posts_nothing_of_matched source sha number _ r
    (rerunIndex_matches source sha number r htok)
  exact ⟨h1, h2, run1_fileComments_length source sha number r,
    run1_thread_length source sha number r, fun hnd => run1_count source sha number r hnd⟩

set_option maxRecDepth 16384 in
/-- Witness for C2 (amended) at the spec's concrete scenario: checker `lint`,
one line-scoped diagnostic at `a.go:10/RIGHT` and one top-level diagnostic;
the second run posts nothing, and the first run posted one line comment and
one thread comment — here one annotation per distinct fingerprint. -/
theorem C2_idempotence_witness :
    (format "lint" "sha0" 1
        (beforeAll
          (fetchedOf .reviewComment
            (format "lint" "sha0" 1 []
              ⟨"", [⟨"a.go", 10, "RIGHT", "issue", SeverityError⟩,
                    ⟨"", 0, "", "note", SeverityInfo⟩]⟩).threadComment.toList)
          (fetchedOf .fileComment
            ((format "lint" "sha0" 1 []
              ⟨"", [⟨"a.go", 10, "RIGHT", "issue", SeverityError⟩,
                    ⟨"", 0, "", "note", SeverityInfo⟩]⟩).fileComments.map NewFileComment.text)))
        ⟨"", [⟨"a.go", 10, "RIGHT", "issue", SeverityError⟩,
              ⟨"", 0, "", "note", SeverityInfo⟩]⟩).fileComments = [] ∧
    (format "lint" "sha0" 1
        (beforeAll
          (fetchedOf .reviewComment
            (format "lint" "sha0" 1 []
              ⟨"", [⟨"a.go", 10, "RIGHT", "issue", SeverityError⟩,
                    ⟨"", 0, "", "note", SeverityInfo⟩]⟩).threadComment.toList)
          (fetchedOf .fileComment
            ((format "lint" "sha0" 1 []
              ⟨"", [⟨"a.go", 10, "RIGHT", "issue", SeverityError⟩,
                    ⟨"", 0, "", "note", SeverityInfo⟩]⟩).fileComments.map NewFileComment.text)))
        ⟨"", [⟨"a.go", 10, "RIGHT", "issue", SeverityError⟩,
              ⟨"", 0, "", "note", SeverityInfo⟩]⟩).threadComment = none ∧
    (format "lint" "sha0" 1 []
        ⟨"", [⟨"a.go", 10, "RIGHT", "issue", SeverityError⟩,
              ⟨"", 0, "", "note", SeverityInfo⟩]⟩).fileComments.length = 1 ∧
    (format "lint" "sha0" 1 []
        ⟨"", [⟨"a.go", 10, "RIGHT", "issue", SeverityError⟩,
              ⟨"", 0, "", "note", SeverityInfo⟩]⟩).threadComment.toList.length = 1 ∧
    (format "lint" "sha0" 1 []
        ⟨"", [⟨"a.go", 10, "RIGHT", "issue", SeverityError⟩,
              ⟨"", 0, "", "note", SeverityInfo⟩]⟩).fileComments.length +
      (format "lint" "sha0" 1 []
        ⟨"", [⟨"a.go", 10, "RIGHT", "issue", SeverityError⟩,
              ⟨"", 0, "", "note", SeverityInfo⟩]⟩).threadComment.toList.length =
      ((⟨"", [⟨"a.go", 10, "RIGHT", "issue", SeverityError⟩,
              ⟨"", 0, "", "note", SeverityInfo⟩]⟩ : Result).comments.map
        (fingerprint "lint")).toFinset.card := by
  have h := C2_idempotence.2 "lint" "sha0" 1
    ⟨"", [⟨"a.go", 10, "RIGHT", "issue", SeverityError⟩, ⟨"", 0, "", "note", SeverityInfo⟩]⟩
    (by decide)
  refine ⟨h.1, h.2.1, ?_, ?_, h.2.2.2.2 (by decide)⟩
  · rw [h.2.2.1]
    decide
  · rw [h.2.2.2.1]
    decide
/-! ### C9 — diagnostic scoping (line comment vs aggregated thread comment) -/

/-- **C9 counterexample.** A diagnostic with non-empty file but zero line
(`a.go:0`) is not `file = "" ∧ line = 0`, so per the claim it would be
line-scoped and posted as a line comment; the code instead requires *both*
file non-empty and line non-zero (githubformat.go:120) and appends this
diagnostic to the aggregated thread comment, posting no line comment. -/
theorem C9_counterexample :
    ¬ ("a.go" = "" ∧ (0 : Nat) = 0) ∧
    (format "lint" "sha0" 1 [] ⟨"", [⟨"a.go", 0, "RIGHT", "mixed", SeverityInfo⟩]⟩).fileComments
      = [] ∧
    (format "lint" "sha0" 1 []
      ⟨"", [⟨"a.go", 0, "RIGHT", "mixed", SeverityInfo⟩]⟩).threadComment.isSome = true := by
  decide

/-- **C9 (amended).** An unmatched diagnostic is posted as a line comment at
its file, line and side iff its file is non-empty *and* its line non-zero;
any other unmatched diagnostic (empty file *or* zero line) contributes its
rendered block to the single aggregated thread comment of that `Format` call,
which is posted (at most once, with the shared footer) whenever some such
diagnostic exists. -/
theorem C9_amended_scoping (source sha : String) (number : Int) (idx : CommentIndex)
    (r : Result) (c : Comment) (hc : c ∈ r.comments)
    (hunm : mapLookup idx (fingerprint source c) = none) :
    ((c.file ≠ "" ∧ c.line ≠ 0) →
      fileCommentFor source sha number c ∈ (format source sha number idx r).fileComments) ∧
    ((c.file = "" ∨ c.line = 0) →
      (renderBody source c ++ "\n\n") ∈ r.comments.filterMap (topSel source idx) ∧
      (format source sha number idx r).threadComment =
        some (strJoin (r.comments.filterMap (topSel source idx)) ++ footerFor source)) := by
  constructor
  · intro hline
    rw [format_spec]
    exact List.mem_filterMap.mpr ⟨c, hc, by simp [fileSel, hunm, hline]⟩
  · intro htop
    have hnot : ¬ (c.file ≠ "" ∧ c.line ≠ 0) := by
      rcases htop with h | h <;> simp [h]
    have hmem : (renderBody source c ++ "\n\n") ∈ r.comments.filterMap (topSel source idx) :=
      List.mem_filterMap.mpr ⟨c, hc, by simp [topSel, hunm, hnot]⟩
    refine ⟨hmem, ?_⟩
    rw [format_spec]
    simp only [FormatOut.threadComment]
    rw [if_neg (strJoin_ne_empty_of_mem _ _ hmem (renderBody_block_data_ne_nil source c))]

set_option maxRecDepth 8192 in
/-- Witness for C9 (amended): a line-scoped diagnostic is posted as a line
comment; a top-level diagnostic lands in the posted thread comment. -/
theorem C9_amended_scoping_witness :
    fileCommentFor "lint" "sha0" 1 ⟨"a.go", 10, "RIGHT", "issue", SeverityError⟩ ∈
      (format "lint" "sha0" 1 []
        ⟨"", [⟨"a.go", 10, "RIGHT", "issue", SeverityError⟩]⟩).fileComments ∧
    (format "lint" "sha0" 1 []
        ⟨"", [⟨"", 0, "", "note", SeverityInfo⟩]⟩).threadComment =
      some (strJoin [renderBody "lint" ⟨"", 0, "", "note", SeverityInfo⟩ ++ "\n\n"] ++
        footerFor "lint") := by
  constructor
  · exact (C9_amended_scoping "lint" "sha0" 1 []
      ⟨"", [⟨"a.go", 10, "RIGHT", "issue", SeverityError⟩]⟩
      ⟨"a.go", 10, "RIGHT", "issue", SeverityError⟩ (by decide) rfl).1 ⟨by decide, by decide⟩
  · have h := (C9_amended_scoping "lint" "sha0" 1 []
      ⟨"", [⟨"", 0, "", "note", SeverityInfo⟩]⟩
      ⟨"", 0, "", "note", SeverityInfo⟩ (by decide) rfl).2 (Or.inl rfl)
    rw [h.2]
    decide

/-! ### C1 — a matched annotation is nevertheless resolved (map-copy bug) -/

/-- **C1.** The post-hook does resolve exactly the still-stale entries, but
the claimed "in particular" behavior fails: `ec.Stale = false`
(githubformat.go:103) assigns to `ec`, a *copy* of the looked-up map value,
so a diagnostic whose fingerprint matches an indexed entry does not flip that
entry's stale flag.  Concretely: one indexed thread comment with fingerprint
`manifest:lint`, one current diagnostic with the same fingerprint — `Format`
posts nothing and leaves the index unchanged, the entry's `stale` is still
`true` after formatting, and `AfterAll` resolves (strikes) the annotation even
though the checker still reports the problem — the opposite of what the claim
(and the code's own comment at githubformat.go:102) states. -/
theorem C1_matched_entry_still_resolved :
    (mapLookup (beforeAll [⟨"<!-- manifest:lint -->", 7, CommentType.reviewComment, true⟩] [])
        (fingerprint "lint" ⟨"", 0, "", "still broken", SeverityError⟩)).isSome = true ∧
    (format "lint" "sha0" 1
        (beforeAll [⟨"<!-- manifest:lint -->", 7, CommentType.reviewComment, true⟩] [])
        ⟨"", [⟨"", 0, "", "still broken", SeverityError⟩]⟩).fileComments = [] ∧
    (format "lint" "sha0" 1
        (beforeAll [⟨"<!-- manifest:lint -->", 7, CommentType.reviewComment, true⟩] [])
        ⟨"", [⟨"", 0, "", "still broken", SeverityError⟩]⟩).threadComment = none ∧
    (format "lint" "sha0" 1
        (beforeAll [⟨"<!-- manifest:lint -->", 7, CommentType.reviewComment, true⟩] [])
        ⟨"", [⟨"", 0, "", "still broken", SeverityError⟩]⟩).index =
      beforeAll [⟨"<!-- manifest:lint -->", 7, CommentType.reviewComment, true⟩] [] ∧
    mapLookup (beforeAll [⟨"<!-- manifest:lint -->", 7, CommentType.reviewComment, true⟩] [])
        "manifest:lint" =
      some ⟨"<!-- manifest:lint -->", 7, CommentType.reviewComment, true⟩ ∧
    afterAll (beforeAll [⟨"<!-- manifest:lint -->", 7, CommentType.reviewComment, true⟩] []) =
      [⟨"<!-- manifest:lint -->", 7, CommentType.reviewComment, true⟩] := by
  decide

/-! ### C6 — the `<strike>` skip only covers thread comments -/

/-- **C6 counterexample.** A previously resolved (struck) *line-level*
annotation is not skipped by `BeforeAll`: the review-comments loop
(githubformat.go:68-73) has no `<strike>` check, so the struck annotation is
re-indexed — and, no current diagnostic matching it, it is re-resolved by
`AfterAll`.  This contradicts the claim that the skip holds for both
review-level and line-level annotations. -/
theorem C6_counterexample :
    goHasPrefix "<strike><!-- manifest:lint:a.go:10:RIGHT --></strike>" "<strike>" = true ∧
    (mapLookup
        (beforeAll []
          [⟨"<strike><!-- manifest:lint:a.go:10:RIGHT --></strike>", 5,
            CommentType.fileComment, true⟩])
        "manifest:lint:a.go:10:RIGHT").isSome = true ∧
    afterAll (beforeAll []
        [⟨"<strike><!-- manifest:lint:a.go:10:RIGHT --></strike>", 5,
          CommentType.fileComment, true⟩]) =
      [⟨"<strike><!-- manifest:lint:a.go:10:RIGHT --></strike>", 5,
        CommentType.fileComment, true⟩] := by
  decide

/-- **C6 (amended).** `BeforeAll` skips struck annotations only among the
*thread* comments: a thread comment whose body starts with `<strike>`
contributes nothing to the index, whereas a review (line-level) comment is
indexed unconditionally, struck or not. -/
theorem C6_amended_strike_skip (t : GComment) (ts rs : List GComment)
    (h : goHasPrefix t.body "<strike>" = true) :
    beforeAll (t :: ts) rs = beforeAll ts rs ∧
    ∀ r : GComment, beforeAll [] [r] = indexBody [] r := by
  constructor
  · simp [beforeAll, h]
  · intro r
    rfl

/-- Witness for C6 (amended): a struck thread comment is skipped (the index
stays empty), while the struck review comment of the counterexample *is*
indexed. -/
theorem C6_amended_strike_skip_witness :
    beforeAll [⟨"<strike>old finding</strike>", 3, CommentType.reviewComment, true⟩] [] =
      beforeAll [] [] ∧
    beforeAll []
        [⟨"<strike><!-- manifest:z --></strike>", 4, CommentType.fileComment, true⟩] =
      indexBody [] ⟨"<strike><!-- manifest:z --></strike>", 4, CommentType.fileComment, true⟩ := by
  have h := C6_amended_strike_skip
    ⟨"<strike>old finding</strike>", 3, CommentType.reviewComment, true⟩ [] [] (by decide)
  exact ⟨h.1, h.2 _⟩

end Manifest
